import Mathlib

/-
Shallow embedding of the schedtest harness (parse_sched.py, runschedtests.py)
from the Nitr0-G/Vmware repository, together with proofs about the properties
the specification asserts.

Conventions used throughout:
* A text line is a `List Char`; the file handed to the parser is a
  `List (List Char)` of lines.  Python's `readline` at end of file returns
  the empty string, which never matches the data-line pattern, so modelling
  the file as a finite list of lines is exact.
* Python exceptions are modelled by `Option`: a function returns `none`
  exactly when the corresponding Python code raises (the `except` handler in
  `load_data`'s vcpu loop is the one place an exception is caught).
* Python floats are modelled as exact rationals (`Rat`).
-/

namespace SchedTest

/-- Python whitespace characters, as recognised by `string.split` and by the
regular expression class `\s` used in `parse_sched.py`. -/
def isPySpace (c : Char) : Bool :=
  c = ' ' || c = '\t' || c = '\n' || c = '\r' || c = '\x0b' || c = '\x0c'

/-- Worker for `pysplit`: accumulates the current (reversed) token. -/
def pysplitAux : List Char → List Char → List (List Char)
  | [], acc => if acc = [] then [] else [acc.reverse]
  | c :: cs, acc =>
    if isPySpace c then
      if acc = [] then pysplitAux cs [] else acc.reverse :: pysplitAux cs []
    else
      pysplitAux cs (c :: acc)

/-- Python's `string.split(s)` with no separator: split on runs of
whitespace, producing no empty tokens.  Used as `split(...)` throughout
`parse_sched.load_data`. -/
def pysplit (s : List Char) : List (List Char) :=
  pysplitAux s []

/-- Success of `re.match('\s*\d+', line)`: optional leading whitespace
followed by at least one digit, anchored at the start of the line.  This is
the `notblank` pattern of `parse_sched.load_data` that decides whether a
line is a data line of the current table. -/
def notblankMatch : List Char → Bool
  | [] => false
  | c :: cs => if isPySpace c then notblankMatch cs else c.isDigit

/-- `LineData` (parse_sched.py): a single table line, matching headers with
values.  The Python object stores a dict built by
`self.data[headers[i]] = cur_data[i]` for i ascending; we keep the
association list in insertion order (so a duplicated header is resolved by
the *last* binding, as for the dict). -/
structure LineData where
  data : List (List Char × List Char)
deriving DecidableEq

/-- `LineData.__init__`: raises (`none`) when the header and data rows have
different lengths, otherwise zips them up. -/
def mkLineData (headers cur_data : List (List Char)) : Option LineData :=
  if headers.length = cur_data.length then some ⟨headers.zip cur_data⟩ else none

/-- Lookup in the association list with Python-dict semantics: the binding
added last wins. -/
def dictGet (attr : List Char) : List (List Char × List Char) → Option (List Char)
  | [] => none
  | (k, v) :: rest =>
    match dictGet attr rest with
    | some w => some w
    | none => if k = attr then some v else none

/-- Result of an attribute lookup on a `LineData`: either the raw string
stored for the field, or the numeric default. -/
inductive AttrVal where
  | str (v : List Char)
  | num (n : Int)
deriving DecidableEq

/-- `LineData.__getattr__`: a present field returns its raw string value, a
missing field returns the integer 0. -/
def LineData.getattr (ld : LineData) (attr : List Char) : AttrVal :=
  match dictGet attr ld.data with
  | some v => .str v
  | none => .num 0

/-- The vcpu-table loop of `load_data` (lines 136-145): consume lines while
they match `notblank`; each one is appended to `vcpulines`, then converted
to a `LineData` inside `try`, so a mismatched line is skipped and the loop
continues.  Returns the records together with the raw `vcpulines`. -/
def parseVcpuLines (hs : List (List Char)) :
    List (List Char) → List LineData × List (List Char)
  | [] => ([], [])
  | l :: rest =>
    if notblankMatch l then
      let r := parseVcpuLines hs rest
      match mkLineData hs (pysplit l) with
      | some item => (item :: r.1, l :: r.2)
      | none => (r.1, l :: r.2)
    else ([], [])

/-- The pcpu-table loop of `load_data` (lines 128-132): consume lines while
they match `notblank`.  There is no `try` here, so a mismatched line raises
(`none`).  On success also returns the lines remaining after the
terminating non-matching line (which the loop consumed). -/
def parsePcpuLines (hs : List (List Char)) :
    List (List Char) → Option (List LineData × List (List Char))
  | [] => some ([], [])
  | l :: rest =>
    if notblankMatch l then
      match mkLineData hs (pysplit l) with
      | none => none
      | some item =>
        match parsePcpuLines hs rest with
        | none => none
        | some r => some (item :: r.1, r.2)
    else some ([], rest)

/-- The cell-section skip of `load_data` (lines 123-124):
`while notblank.match(infile.readline()): pass` — consumes matching lines
and also the first non-matching line (read by the loop condition). -/
def skipCellLines : List (List Char) → List (List Char)
  | [] => []
  | l :: rest => if notblankMatch l then skipCellLines rest else rest

/-- `infile.readline()`: pops the next line, or returns the empty string at
end of file. -/
def readline : List (List Char) → List Char × List (List Char)
  | [] => ([], [])
  | l :: rest => (l, rest)

/-- `SchedData` (parse_sched.py): wrapper for the parsed tables. -/
structure SchedData where
  vcpu_list : List LineData
  pcpu_list : List LineData
  vcpulines : List (List Char)
  global_data : Option LineData
deriving DecidableEq

/-- `parse_sched.load_data`, over the list of lines of the dump.
`none` models an uncaught exception:
* a mismatched global line raises in `LineData.__init__` (line 117, no try);
* a mismatched pcpu line raises in `LineData.__init__` (line 131, no try);
* with `verbose` false the final `return` reads the local `global_data`,
  which was only ever assigned inside the `if verbose:` block, so the
  function raises `UnboundLocalError` and never returns a snapshot. -/
def load_data (lines : List (List Char)) (verbose : Bool) : Option SchedData :=
  if verbose then
    let p1 := readline lines
    let p2 := readline p1.2
    match mkLineData (pysplit p1.1) (pysplit p2.1) with
    | none => none
    | some gd =>
      let p3 := readline p2.2
      let p4 := readline p3.2
      let r5 := skipCellLines p4.2
      let p6 := readline r5
      match parsePcpuLines (pysplit p6.1) p6.2 with
      | none => none
      | some pr =>
        let p8 := readline pr.2
        let vr := parseVcpuLines (pysplit p8.1) p8.2
        some ⟨vr.1, pr.1, vr.2, some gd⟩
  else
    none

/-! ### runschedtests.py -/

/-- Python's `reduce(operator.add, l)`, as used by `VM.getVcpuVal`: raises
(`none`) on an empty list, otherwise folds `+` from the first element. -/
def reduceAdd (l : List Rat) : Option Rat :=
  match l with
  | [] => none
  | x :: xs => some (xs.foldl (· + ·) x)

/-- A Python accumulation loop `total = 0` / `total += x`. -/
def pySum {α : Type} [Add α] [Zero α] (l : List α) : α :=
  l.foldl (· + ·) 0

/-- The data `FairnessTest.results` reads for one VM of the workload group:
its configured `shares`, and the `usedsec` values of its vcpu records taken
from the snapshot by `setSchedData` (so `getUsedSec` is their sum). -/
structure FairVm where
  shares : Int
  vcpuUsed : List Rat
deriving DecidableEq

/-- `VM.getUsedSec`: `reduce(operator.add, ...)` over the per-vcpu
`usedsec` values; raises on a VM with no vcpu records. -/
def FairVm.getUsedSec (v : FairVm) : Option Rat :=
  reduceAdd v.vcpuUsed

/-- `getUsedSec` for every VM of the group, in order; `none` if any raises. -/
def usedList : List FairVm → Option (List Rat)
  | [] => some []
  | v :: vs =>
    match v.getUsedSec, usedList vs with
    | some u, some us => some (u :: us)
    | _, _ => none

/-- The fairness ratios computed by the `FairnessTest.results` loop (line
599): `fairness = (v.getUsedSec() / totalUsed) / shareFraction` with
`shareFraction = float(v.shares) / float(totalShares)`, one per VM in
order. -/
def fairRatios (vms : List FairVm) (useds : List Rat) : List Rat :=
  List.zipWith
    (fun v u => (u / pySum useds)
      / ((v.shares : Rat) / ((pySum (vms.map FairVm.shares) : Int) : Rat)))
    vms useds

/-- The indices of the VMs for which the `FairnessTest.results` loop (line
600) appends a `FairnessError`: those whose ratio satisfies
`abs(fairness - 1.0) > maxUnfairness`. -/
def fairErrs (maxUnfairness : Rat) (vms : List FairVm) (useds : List Rat) : List Nat :=
  (List.range (fairRatios vms useds).length).filter
    (fun i => maxUnfairness < |(fairRatios vms useds).getD i 0 - 1|)

/-- `FairnessTest.results` (lines 581-605).  Returns the fairness ratio of
each VM (the metrics map, keyed positionally) and the list of indices for
which a `FairnessError` is appended.  `none` models a failed assert
(`totalUsed > 0.0`, `totalShares > 0`, per-VM `v.shares > 0`) or an
exception from `getUsedSec`. -/
def fairnessResults (maxUnfairness : Rat) (vms : List FairVm) :
    Option (List Rat × List Nat) :=
  match usedList vms with
  | none => none
  | some useds =>
    if 0 < pySum useds ∧ 0 < pySum (vms.map FairVm.shares) ∧ ∀ v ∈ vms, 0 < v.shares then
      some (fairRatios vms useds, fairErrs maxUnfairness vms useds)
    else none

/-- `FairnessTest.__init__` default for `maxUnfairness`. -/
def defaultMaxUnfairness : Rat := 1 / 10

/-- Scaling a VM's shares by a constant, leaving its snapshot data fixed. -/
def scaleShares (c : Int) (v : FairVm) : FairVm :=
  { v with shares := c * v.shares }

/-- The data `MinMaxTest.results` reads for one VM: the `min`, `max` and
`uptime` fields of its leader vcpu record (via `getVMVal`) and the per-vcpu
`usedsec` values (via `getVcpuVal`). -/
structure MMVm where
  amin : Int
  amax : Int
  uptime : Rat
  vcpuUsed : List Rat
deriving DecidableEq

/-- The kind of `TestError` appended by `MinMaxTest.results` for one VM. -/
inductive MMErrKind where
  | belowMin
  | aboveMax
deriving DecidableEq

/-- The body of the `MinMaxTest.results` loop for a single VM: the
`(minRatio, maxRatio)` metrics and the errors appended for this VM, in
order (below-min first).  `none` models `getVcpuVal` raising. -/
def minMaxVm (maxErr : Rat) (v : MMVm) : Option ((Rat × Rat) × List MMErrKind) :=
  match reduceAdd v.vcpuUsed with
  | none => none
  | some usedsec =>
    let minUsage := v.uptime * (v.amin : Rat) / 100
    let maxUsage := v.uptime * (v.amax : Rat) / 100
    let errs :=
      (if v.amin ≠ 0 ∧ usedsec < minUsage * (1 - maxErr) then [MMErrKind.belowMin] else [])
        ++ (if v.amax ≠ 0 ∧ maxUsage * (1 + maxErr) < usedsec then [MMErrKind.aboveMax] else [])
    let minRatio := if minUsage = 0 then 0 else usedsec / minUsage
    let maxRatio := if maxUsage = 0 then 0 else usedsec / maxUsage
    some ((minRatio, maxRatio), errs)

/-- The `MinMaxTest.results` loop from index `i0` on: collects the metric
pairs in order and tags each appended error with the index of its VM. -/
def minMaxResultsAux (maxErr : Rat) :
    Nat → List MMVm → Option (List (Rat × Rat) × List (Nat × MMErrKind))
  | _, [] => some ([], [])
  | i, v :: vs =>
    match minMaxVm maxErr v with
    | none => none
    | some r =>
      match minMaxResultsAux maxErr (i + 1) vs with
      | none => none
      | some rest => some (r.1 :: rest.1, r.2.map (fun k => (i, k)) ++ rest.2)

/-- `MinMaxTest.results` (lines 510-545): metrics (keyed positionally) and
the ordered error list, each error tagged with its VM's index. -/
def minMaxResults (maxErr : Rat) (vms : List MMVm) :
    Option (List (Rat × Rat) × List (Nat × MMErrKind)) :=
  minMaxResultsAux maxErr 0 vms

/-- `MinMaxTest.__init__` default for `maxErr`. -/
def defaultMaxErr : Rat := 1 / 10

/-- The possible Python values of `TestWorld.affinity` when set: a per-vcpu
list of pcpus, a bare integer, or a string spec. -/
inductive PyAffin where
  | list (l : List Int)
  | int (n : Int)
  | str (s : String)
deriving DecidableEq

/-- The string built by the list branch of `configAffinity`:
`affinstr += str(i) + ":" + str(affin[i]) + ";"` for `i` in
`range(0, numvcpus)`. -/
def affinPairsStr (numvcpus : Nat) (l : List Int) : String :=
  (List.range numvcpus).foldl
    (fun acc i => acc ++ toString i ++ ":" ++ toString (l.getD i 0) ++ ";") ""

/-- `TestWorld.configAffinity` (lines 202-215): the string written to the
`cpu/affinity` proc node.  `none` models an exception: `affin[i]` raising
`IndexError` when the list is shorter than `numvcpus`, or `"all:" + affin`
raising `TypeError` when `affin` is an integer. -/
def configAffinityStr (numvcpus : Nat) : PyAffin → Option String
  | .list l =>
    if numvcpus ≤ l.length then some (affinPairsStr numvcpus l) else none
  | .int n => if numvcpus = 1 then some (toString n) else none
  | .str s => if numvcpus = 1 then some s else some ("all:" ++ s ++ ";")

/-- The configuration fields of a `TestWorld` (lines 160-172). -/
structure TestWorld where
  run : Int
  wait : Int
  shares : Int
  numvcpus : Nat
  tmin : Int
  tmax : Int
  affinity : Option PyAffin
  htsharing : Option String
deriving DecidableEq

/-- `TestWorld.__init__`: stores the parameters; when the `max` parameter
is 0 (unset), the stored max becomes `100 * numvcpus`. -/
def TestWorld.init (run wait shares : Int) (numvcpus : Nat) (mn mx : Int)
    (affinity : Option PyAffin) : TestWorld :=
  { run := run, wait := wait, shares := shares, numvcpus := numvcpus,
    tmin := mn,
    tmax := if mx = 0 then 100 * (numvcpus : Int) else mx,
    affinity := affinity, htsharing := none }

/-- One control-file write performed by the configuration phase of
`TestWorld.start`. -/
inductive ConfigWrite where
  | minW (v : Int)
  | maxW (v : Int)
  | affinW (s : String)
  | htW (s : String)
deriving DecidableEq

/-- The configuration phase of `TestWorld.start` (lines 235-242), after id
discovery: the sequence of control-file writes issued.  `none` models
`configAffinity` raising. -/
def startConfigWrites (w : TestWorld) : Option (List ConfigWrite) :=
  let l1 := if w.tmin ≠ 0 then [ConfigWrite.minW w.tmin] else []
  let l2 := if w.tmax ≠ (w.numvcpus : Int) * 100 then [ConfigWrite.maxW w.tmax] else []
  let l4 := match w.htsharing with
    | some h => [ConfigWrite.htW h]
    | none => []
  match w.affinity with
  | none => some (l1 ++ l2 ++ l4)
  | some a =>
    match configAffinityStr w.numvcpus a with
    | none => none
    | some s => some (l1 ++ l2 ++ [ConfigWrite.affinW s] ++ l4)

/-- Python's `s.split(",")`: split at every comma, keeping empty pieces. -/
def pysplitCommaAux : List Char → List Char → List (List Char)
  | [], acc => [acc.reverse]
  | c :: cs, acc =>
    if c = ',' then acc.reverse :: pysplitCommaAux cs []
    else pysplitCommaAux cs (c :: acc)

/-- `vm.affinity.split(",")` from `checkAffinity`. -/
def pysplitComma (s : List Char) : List (List Char) :=
  pysplitCommaAux s []

/-- Value of an all-digit string. -/
def digitsVal (ds : List Char) : Nat :=
  ds.foldl (fun acc c => 10 * acc + (c.toNat - '0'.toNat)) 0

/-- Python's `int(s)` on a string: strips surrounding whitespace, accepts an
optional sign followed by digits; raises (`none`) otherwise. -/
def pyInt? (s : List Char) : Option Int :=
  let t1 := s.dropWhile isPySpace
  let t := (t1.reverse.dropWhile isPySpace).reverse
  match t with
  | [] => none
  | '-' :: ds =>
    if ds ≠ [] ∧ ds.all Char.isDigit then some (-(digitsVal ds : Int)) else none
  | '+' :: ds =>
    if ds ≠ [] ∧ ds.all Char.isDigit then some ((digitsVal ds : Int)) else none
  | ds =>
    if ds.all Char.isDigit then some ((digitsVal ds : Int)) else none

/-- The snapshot data `AffinityTortureTest.run` reads for one vcpu of a VM
under test: the raw `cpu` field token of its record and its `usedsec`
value.  (Both fields are present in every scheduler dump.) -/
structure TortureVcpu where
  cpu : List Char
  usedsec : Rat
deriving DecidableEq

/-- One VM as observed inside a repetition of `AffinityTortureTest.run`:
its vcpu count, its currently configured affinity, and its vcpu records
from the snapshot taken in this repetition. -/
structure TortureVm where
  numvcpus : Nat
  affinity : Option PyAffin
  vcpus : List TortureVcpu
deriving DecidableEq

/-- An affinity-violation error appended by `checkAffinity` in its
integer/list branch, carrying the data interpolated into the message:
the expected pcpu `affinlst[i]`, the vcpu index `i`, and the observed
pcpu `p`. -/
inductive TortureErr where
  | affin (expected : Int) (vcpuIdx : Nat) (pcpu : Int)
deriving DecidableEq

/-- The integer/list branch loop of `checkAffinity` (lines 441-445), over
the given vcpu indices: `p = int(vm.vcpus[i].cpu)` compared against
`affinlst[i]`.  `none` models `IndexError` (either list too short) or
`ValueError` from `int()`. -/
def checkAffinityIdxGo (affinlst : List Int) (vcpus : List TortureVcpu) :
    List Nat → Option (Bool × List TortureErr)
  | [] => some (true, [])
  | i :: is =>
    match vcpus.get? i with
    | none => none
    | some v =>
      match pyInt? v.cpu with
      | none => none
      | some p =>
        match affinlst.get? i with
        | none => none
        | some e =>
          match checkAffinityIdxGo affinlst vcpus is with
          | none => none
          | some r =>
            if p ≠ e then some (false, TortureErr.affin e i p :: r.2)
            else some (r.1, r.2)

/-- `checkAffinity` (lines 423-446).  For a string affinity the per-vcpu
check compares the raw `cpu` token against the comma-split affinity; on a
violation the error message formats that raw string with `%d`, which
raises `TypeError` in Python 2, hence `none` in that case. -/
def checkAffinity (vm : TortureVm) : Option (Bool × List TortureErr) :=
  match vm.affinity with
  | none => some (true, [])
  | some (.str s) =>
    let allaffin := pysplitComma s.toList
    if vm.vcpus.all (fun v => allaffin.contains v.cpu) then some (true, [])
    else none
  | some (.int n) => checkAffinityIdxGo [n] vm.vcpus (List.range vm.numvcpus)
  | some (.list l) => checkAffinityIdxGo l vm.vcpus (List.range vm.numvcpus)

/-- The per-VM body of the `AffinityTortureTest.run` repetition loop
(lines 478-487): run `checkAffinity`, extend the error list when it
reports violations, then test the VM's summed used-time against 0.01.
When that stuck condition triggers, the appended message evaluates
`v.vcpu` (and `v.usedsec`) on the `TestWorld` object, which has no such
attributes, so Python raises `AttributeError` instead of recording the
error: this is the `none` branch.  The subsequent re-randomisation and
reapplication of affinity is reflected in the observed state of the next
repetition. -/
def tortureVmStep (v : TortureVm) : Option (List TortureErr) :=
  match checkAffinity v with
  | none => none
  | some r =>
    let errs := if r.1 then [] else r.2
    match reduceAdd (v.vcpus.map TortureVcpu.usedsec) with
    | none => none
    | some used =>
      if used < 1 / 100 then none
      else some errs

/-- Errors collected by one repetition of `AffinityTortureTest.run` over
the VMs under test, in order; an exception aborts the repetition. -/
def tortureStepErrs : List TortureVm → Option (List TortureErr)
  | [] => some []
  | v :: vs =>
    match tortureVmStep v with
    | none => none
    | some es =>
      match tortureStepErrs vs with
      | none => none
      | some rest => some (es ++ rest)

/-- `AffinityTortureTest.run`: the error list accumulated into `self.errs`
across repetitions, given the per-repetition observed VM states; an
exception aborts the whole run. -/
def tortureRunErrs : List (List TortureVm) → Option (List TortureErr)
  | [] => some []
  | rep :: reps =>
    match tortureStepErrs rep with
    | none => none
    | some es =>
      match tortureRunErrs reps with
      | none => none
      | some rest => some (es ++ rest)

/-- Python's `max(l)`: raises (`none`) on an empty sequence, otherwise
folds `max` from the first element. -/
def pymaxInt : List Int → Option Int
  | [] => none
  | x :: xs => some (xs.foldl max x)

/-- `int(v.vm)` for a vcpu record: the raw string field parsed by `int()`,
or `int(0) = 0` when the field is absent (`LineData.__getattr__`). -/
def recordVmId (ld : LineData) : Option Int :=
  match ld.getattr ['v', 'm'] with
  | .str s => pyInt? s
  | .num n => some n

/-- `[int(v.vm) for v in sched.vcpu_list]`. -/
def vcpuVmIds : List LineData → Option (List Int)
  | [] => some []
  | ld :: rest =>
    match recordVmId ld, vcpuVmIds rest with
    | some i, some is => some (i :: is)
    | _, _ => none

/-- `get_max_vmid` (lines 47-54): the maximum numeric proc-directory name
and the maximum world id among the vcpu records of the freshly parsed
snapshot, combined with `min`.  `none` models `max()` raising on an empty
sequence or `int()` failing. -/
def get_max_vmid (nodeIds : List Int) (sd : SchedData) : Option Int :=
  match pymaxInt nodeIds with
  | none => none
  | some maxNode =>
    match vcpuVmIds sd.vcpu_list with
    | none => none
    | some ids =>
      match pymaxInt ids with
      | none => none
      | some maxVM => some (min maxVM maxNode)

/-! ### Helper lemmas -/

lemma dictGet_eq_none (attr : List Char) (l : List (List Char × List Char))
    (h : ∀ p ∈ l, p.1 ≠ attr) : dictGet attr l = none := by
  induction l with
  | nil => rfl
  | cons p rest ih =>
    obtain ⟨k, v⟩ := p
    have hk : k ≠ attr := h (k, v) (by simp)
    have hrest := ih (fun q hq => h q (by simp [hq]))
    simp [dictGet, hrest, hk]

lemma dictGet_eq_some (attr v : List Char) (l : List (List Char × List Char))
    (hnd : (l.map Prod.fst).Nodup) (hmem : (attr, v) ∈ l) :
    dictGet attr l = some v := by
  induction l with
  | nil => simp at hmem
  | cons p rest ih =>
    obtain ⟨k, w⟩ := p
    simp only [List.map_cons, List.nodup_cons] at hnd
    rcases List.mem_cons.mp hmem with heq | hrest
    · have hk : attr = k := congrArg Prod.fst heq
      have hv : v = w := congrArg Prod.snd heq
      subst hk; subst hv
      have hnone : dictGet attr rest = none := by
        apply dictGet_eq_none
        intro q hq hq1
        exact hnd.1 (hq1 ▸ List.mem_map_of_mem Prod.fst hq)
      simp [dictGet, hnone]
    · have := ih hnd.2 hrest
      simp [dictGet, this]

lemma usedList_length (vms : List FairVm) (useds : List Rat)
    (h : usedList vms = some useds) : useds.length = vms.length := by
  induction vms generalizing useds with
  | nil => simp [usedList] at h; simp [← h]
  | cons v vs ih =>
    simp only [usedList] at h
    cases hv : v.getUsedSec with
    | none => rw [hv] at h; simp at h
    | some u =>
      rw [hv] at h
      cases hus : usedList vs with
      | none => rw [hus] at h; simp at h
      | some us =>
        rw [hus] at h
        simp only [Option.some.injEq] at h
        subst h
        simp [ih us hus]

/-! ### C7 -/

/-- C7: attribute lookup on a `LineData` record returns the stored raw
string for a field present in the mapping and the numeric default 0 for a
field name not present, rather than raising. -/
theorem getattr_spec (ld : LineData) (attr : List Char) :
    ((∀ p ∈ ld.data, p.1 ≠ attr) → ld.getattr attr = AttrVal.num 0)
    ∧ ((ld.data.map Prod.fst).Nodup →
        ∀ v, (attr, v) ∈ ld.data → ld.getattr attr = AttrVal.str v) := by
  constructor
  · intro h
    unfold LineData.getattr
    rw [dictGet_eq_none attr ld.data h]
  · intro hnd v hv
    unfold LineData.getattr
    rw [dictGet_eq_some attr v ld.data hnd hv]

/-- Witness for C7 at a concrete record with one field `a = 1`. -/
theorem getattr_spec_witness :
    (LineData.mk [(['a'], ['1'])]).getattr ['b'] = AttrVal.num 0
    ∧ (LineData.mk [(['a'], ['1'])]).getattr ['a'] = AttrVal.str ['1'] :=
  ⟨(getattr_spec (LineData.mk [(['a'], ['1'])]) ['b']).1 (by decide),
   (getattr_spec (LineData.mk [(['a'], ['1'])]) ['a']).2 (by decide) ['1'] (by decide)⟩

/-! ### C2 -/

lemma parseVcpuLines_spec (hs : List (List Char)) (ls : List (List Char))
    (t : List Char) (rest : List (List Char))
    (hm : ∀ l ∈ ls, notblankMatch l = true) (ht : notblankMatch t = false) :
    parseVcpuLines hs (ls ++ t :: rest) =
      (ls.filterMap (fun l => mkLineData hs (pysplit l)), ls) := by
  induction ls with
  | nil => simp [parseVcpuLines, ht]
  | cons a as ih =>
    have ha : notblankMatch a = true := hm a (by simp)
    have ih' := ih (fun l hl => hm l (by simp [hl]))
    simp only [List.cons_append, parseVcpuLines, ha, if_true]
    cases h : mkLineData hs (pysplit a) <;> simp [h, ih']

lemma length_filterMap_all_some {α β : Type} (f : α → Option β) (l : List α)
    (h : ∀ x ∈ l, (f x).isSome) : (l.filterMap f).length = l.length := by
  induction l with
  | nil => rfl
  | cons a as ih =>
    obtain ⟨b, hb⟩ := Option.isSome_iff_exists.mp (h a (by simp))
    simp [List.filterMap_cons, hb, ih (fun x hx => h x (by simp [hx]))]

/-- C2: for a vcpu table whose header splits into H columns, followed by N
data lines each matching the leading-whitespace-then-digit pattern and each
splitting into exactly H tokens, terminated by a non-matching line, the
parser yields exactly N records each with H fields; and if exactly one of
the N data lines splits into a different token count, it yields N-1
records. -/
theorem vcpu_table_counts (hline t : List Char) (ls rest : List (List Char)) (H : Nat)
    (hH : (pysplit hline).length = H)
    (hm : ∀ l ∈ ls, notblankMatch l = true)
    (ht : notblankMatch t = false) :
    ((∀ l ∈ ls, (pysplit l).length = H) →
      (parseVcpuLines (pysplit hline) (ls ++ t :: rest)).1.length = ls.length
      ∧ ∀ item ∈ (parseVcpuLines (pysplit hline) (ls ++ t :: rest)).1,
          item.data.length = H)
    ∧ (∀ l1 bad l2, ls = l1 ++ bad :: l2 → (pysplit bad).length ≠ H →
        (∀ l ∈ l1 ++ l2, (pysplit l).length = H) →
        (parseVcpuLines (pysplit hline) (ls ++ t :: rest)).1.length = ls.length - 1) := by
  rw [parseVcpuLines_spec (pysplit hline) ls t rest hm ht]
  constructor
  · intro hall
    constructor
    · apply length_filterMap_all_some
      intro l hl
      simp [mkLineData, hH, hall l hl]
    · intro item hitem
      obtain ⟨l, hl, hmk⟩ := List.mem_filterMap.mp hitem
      unfold mkLineData at hmk
      rw [if_pos (by rw [hH, hall l hl])] at hmk
      cases hmk
      simp [List.length_zip, hH, hall l hl]
  · intro l1 bad l2 hsplit hbad hgood
    subst hsplit
    have hbadnone : mkLineData (pysplit hline) (pysplit bad) = none := by
      unfold mkLineData
      rw [if_neg]
      rw [hH]
      intro hcon
      exact hbad hcon.symm
    have hlen : ∀ l ∈ l1 ++ l2,
        (mkLineData (pysplit hline) (pysplit l)).isSome := by
      intro l hl
      simp [mkLineData, hH, hgood l hl]
    simp only [List.filterMap_append, List.filterMap_cons, hbadnone]
    rw [List.length_append,
        length_filterMap_all_some _ _ (fun l hl => hlen l (by simp [hl])),
        length_filterMap_all_some _ _ (fun l hl => hlen l (by simp [hl]))]
    simp only [List.length_append, List.length_cons]
    omega

/-- Witness for C2: header with 2 columns, two well-formed data lines (and,
for the corrupt-line part, a 3-token line inserted between them). -/
theorem vcpu_table_counts_witness :
    (pysplit "vm vcpu".toList).length = 2
    ∧ (∀ l ∈ ["1 1".toList, "2 1 3".toList, "3 3".toList], notblankMatch l = true)
    ∧ notblankMatch "".toList = false
    ∧ (parseVcpuLines (pysplit "vm vcpu".toList)
        (["1 1".toList, "2 1 3".toList, "3 3".toList] ++ "".toList :: [])).1.length
        = ["1 1".toList, "2 1 3".toList, "3 3".toList].length - 1 := by
  refine ⟨by decide, by decide, by decide, ?_⟩
  exact (vcpu_table_counts "vm vcpu".toList "".toList
      ["1 1".toList, "2 1 3".toList, "3 3".toList] [] 2
      (by decide) (by decide) (by decide)).2
    ["1 1".toList] "2 1 3".toList ["3 3".toList] (by decide) (by decide) (by decide)

/-! ### C6 -/

lemma string_foldl_append (l : List String) (acc : String) :
    l.foldl (· ++ ·) acc = acc ++ String.join l := by
  induction l generalizing acc with
  | nil => simp [String.join, String.append_empty]
  | cons x xs ih =>
    show xs.foldl (· ++ ·) (acc ++ x) = acc ++ String.join (x :: xs)
    rw [ih]
    have hj : String.join (x :: xs) = ("" ++ x) ++ String.join xs := by
      show xs.foldl (· ++ ·) ("" ++ x) = ("" ++ x) ++ String.join xs
      rw [ih]
    rw [hj, String.empty_append, String.append_assoc]

lemma string_join_cons (x : String) (xs : List String) :
    String.join (x :: xs) = x ++ String.join xs := by
  show xs.foldl (· ++ ·) ("" ++ x) = x ++ String.join xs
  rw [string_foldl_append, String.empty_append]

lemma affinPairsStr_eq_join (numvcpus : Nat) (l : List Int) :
    affinPairsStr numvcpus l =
      String.join ((List.range numvcpus).map
        (fun i => toString i ++ ":" ++ toString (l.getD i 0) ++ ";")) := by
  unfold affinPairsStr
  have key : ∀ (is : List Nat) (acc : String),
      is.foldl (fun acc i => acc ++ toString i ++ ":" ++ toString (l.getD i 0) ++ ";") acc
        = acc ++ String.join
            (is.map (fun i => toString i ++ ":" ++ toString (l.getD i 0) ++ ";")) := by
    intro is
    induction is with
    | nil => intro acc; simp [String.join, String.append_empty]
    | cons i is ih =>
      intro acc
      simp only [List.foldl_cons, List.map_cons]
      rw [ih, string_join_cons]
      simp [String.append_assoc]
  rw [key, String.empty_append]

/-- C6: `configAffinity` serializes the configured affinity into exactly
one of three wire formats: for a per-vcpu list, the concatenation of
`<vcpu>:<pcpu>;` pairs for vcpu indices 0 through numvcpus-1 in order; for
a non-list value on a single-vcpu world, the bare decimal pcpu value; and
otherwise (multi-vcpu uniform string spec), `all:<spec>;`. -/
theorem configAffinity_formats (numvcpus : Nat) :
    (∀ l : List Int, numvcpus ≤ l.length →
      configAffinityStr numvcpus (PyAffin.list l) =
        some (String.join ((List.range numvcpus).map
          (fun i => toString i ++ ":" ++ toString (l.getD i 0) ++ ";"))))
    ∧ (∀ n : Int, configAffinityStr 1 (PyAffin.int n) = some (toString n))
    ∧ (∀ s : String, configAffinityStr 1 (PyAffin.str s) = some s)
    ∧ (numvcpus ≠ 1 → ∀ s : String,
        configAffinityStr numvcpus (PyAffin.str s) = some ("all:" ++ s ++ ";")) := by
  refine ⟨?_, ?_, ?_, ?_⟩
  · intro l hl
    simp [configAffinityStr, hl, affinPairsStr_eq_join]
  · intro n
    simp [configAffinityStr]
  · intro s
    simp [configAffinityStr]
  · intro h s
    simp [configAffinityStr, h]

/-- Witness for C6 with two vcpus and the explicit list `[3, 5]`. -/
theorem configAffinity_formats_witness :
    2 ≤ ([3, 5] : List Int).length
    ∧ configAffinityStr 2 (PyAffin.list [3, 5]) =
        some (String.join ((List.range 2).map
          (fun i => toString i ++ ":" ++ toString (([3, 5] : List Int).getD i 0) ++ ";")))
    ∧ (2 : Nat) ≠ 1
    ∧ configAffinityStr 2 (PyAffin.str "0,1") = some ("all:" ++ "0,1" ++ ";") :=
  ⟨by decide, (configAffinity_formats 2).1 [3, 5] (by decide), by decide,
   (configAffinity_formats 2).2.2.2 (by decide) "0,1"⟩

/-! ### C8 -/

lemma maxW_mem_iff (w : TestWorld) (ws : List ConfigWrite) (v : Int)
    (hw : startConfigWrites w = some ws) :
    ConfigWrite.maxW v ∈ ws ↔ (v = w.tmax ∧ w.tmax ≠ (w.numvcpus : Int) * 100) := by
  cases ha : w.affinity with
  | none =>
    simp only [startConfigWrites, ha] at hw
    cases hh : w.htsharing <;> rw [hh] at hw <;>
      simp only [Option.some.injEq] at hw <;> subst hw <;>
      split_ifs with h1 h2 <;> simp_all [eq_comm]
  | some a =>
    simp only [startConfigWrites, ha] at hw
    cases hca : configAffinityStr w.numvcpus a with
    | none => rw [hca] at hw; simp at hw
    | some s =>
      rw [hca] at hw
      cases hh : w.htsharing <;> rw [hh] at hw <;>
        simp only [Option.some.injEq] at hw <;> subst hw <;>
        split_ifs with h1 h2 <;> simp_all [eq_comm]

/-- C8: a `TestWorld` constructed with the max parameter unset (0) stores
`100 * numvcpus` as its max; and the configuration phase of `start` writes
the `cpu/max` control file if and only if the stored max differs from
`100 * numvcpus`. -/
theorem testworld_max_default (run wait shares : Int) (numvcpus : Nat) (mn : Int)
    (affin : Option PyAffin) (w : TestWorld) (ws : List ConfigWrite)
    (hw : startConfigWrites w = some ws) :
    (TestWorld.init run wait shares numvcpus mn 0 affin).tmax = 100 * (numvcpus : Int)
    ∧ (ConfigWrite.maxW w.tmax ∈ ws ↔ w.tmax ≠ 100 * (w.numvcpus : Int))
    ∧ (∀ v, ConfigWrite.maxW v ∈ ws → v = w.tmax) := by
  refine ⟨by simp [TestWorld.init], ?_, ?_⟩
  · rw [maxW_mem_iff w ws w.tmax hw, mul_comm]
    simp
  · intro v hv
    exact ((maxW_mem_iff w ws v hw).mp hv).1

/-- Witness for C8: a two-vcpu world constructed with max 50 (non-default),
whose configuration phase therefore writes the max control file. -/
theorem testworld_max_default_witness :
    startConfigWrites (TestWorld.init 10 0 1000 2 0 50 none) = some [ConfigWrite.maxW 50]
    ∧ (TestWorld.init 10 0 1000 2 0 0 none).tmax = 100 * (2 : Int)
    ∧ (ConfigWrite.maxW (TestWorld.init 10 0 1000 2 0 50 none).tmax ∈ [ConfigWrite.maxW 50]
        ↔ (TestWorld.init 10 0 1000 2 0 50 none).tmax
            ≠ 100 * ((TestWorld.init 10 0 1000 2 0 50 none).numvcpus : Int)) :=
  ⟨by decide,
   (testworld_max_default 10 0 1000 2 0 none (TestWorld.init 10 0 1000 2 0 50 none)
      [ConfigWrite.maxW 50] (by decide)).1,
   (testworld_max_default 10 0 1000 2 0 none (TestWorld.init 10 0 1000 2 0 50 none)
      [ConfigWrite.maxW 50] (by decide)).2.1⟩

/-! ### C10 -/

lemma foldl_max_spec (xs : List Int) (a : Int) :
    (xs.foldl max a = a ∨ xs.foldl max a ∈ xs)
    ∧ a ≤ xs.foldl max a ∧ ∀ x ∈ xs, x ≤ xs.foldl max a := by
  induction xs generalizing a with
  | nil => simp
  | cons x xs ih =>
    obtain ⟨hmem, hle, hall⟩ := ih (max a x)
    refine ⟨?_, ?_, ?_⟩
    · rcases hmem with h | h
      · rcases max_choice a x with hax | hax
        · left; rw [List.foldl_cons, h, hax]
        · right; rw [List.foldl_cons, h, hax]; simp
      · right
        simp only [List.foldl_cons]
        exact List.mem_cons_of_mem x h
    · calc a ≤ max a x := le_max_left a x
        _ ≤ _ := hle
    · intro y hy
      rcases List.mem_cons.mp hy with rfl | hy
      · calc y ≤ max a y := le_max_right a y
          _ ≤ _ := hle
      · exact hall y hy

lemma pymaxInt_spec (l : List Int) (hl : l ≠ []) :
    ∃ m, pymaxInt l = some m ∧ m ∈ l ∧ ∀ x ∈ l, x ≤ m := by
  cases l with
  | nil => simp at hl
  | cons x xs =>
    obtain ⟨hmem, hle, hall⟩ := foldl_max_spec xs x
    refine ⟨xs.foldl max x, rfl, ?_, ?_⟩
    · rcases hmem with h | h
      · rw [h]; simp
      · exact List.mem_cons_of_mem x h
    · intro y hy
      rcases List.mem_cons.mp hy with rfl | hy
      · exact hle
      · exact hall y hy

/-- C10: `get_max_vmid` returns the minimum of the two maxima (the largest
numeric per-vm proc-directory name and the largest world id among the vcpu
records of the freshly parsed snapshot); consequently it exceeds a
previously observed maximum only when both sources contain an id above
that maximum. -/
theorem get_max_vmid_spec (nodeIds : List Int) (sd : SchedData) (ids : List Int)
    (hids : vcpuVmIds sd.vcpu_list = some ids)
    (hn : nodeIds ≠ []) (hi : ids ≠ []) :
    ∃ mN mV, mN ∈ nodeIds ∧ mV ∈ ids
      ∧ (∀ d ∈ nodeIds, d ≤ mN) ∧ (∀ v ∈ ids, v ≤ mV)
      ∧ get_max_vmid nodeIds sd = some (min mV mN)
      ∧ ∀ oldmax : Int, oldmax < min mV mN →
          (∃ d ∈ nodeIds, oldmax < d) ∧ (∃ v ∈ ids, oldmax < v) := by
  obtain ⟨mN, hmN, hmNmem, hmNub⟩ := pymaxInt_spec nodeIds hn
  obtain ⟨mV, hmV, hmVmem, hmVub⟩ := pymaxInt_spec ids hi
  refine ⟨mN, mV, hmNmem, hmVmem, hmNub, hmVub, ?_, ?_⟩
  · unfold get_max_vmid
    rw [hmN, hids]
    simp [hmV]
  · intro oldmax hlt
    exact ⟨⟨mN, hmNmem, lt_of_lt_of_le hlt (min_le_right _ _)⟩,
           ⟨mV, hmVmem, lt_of_lt_of_le hlt (min_le_left _ _)⟩⟩

/-- Witness for C10: proc directories 3 and 7, one vcpu record with world
id 5; the reported maximum is `min 5 7 = 5`. -/
theorem get_max_vmid_spec_witness :
    vcpuVmIds (SchedData.mk [LineData.mk [(['v', 'm'], ['5'])]] [] [] none).vcpu_list
      = some [5]
    ∧ ([3, 7] : List Int) ≠ []
    ∧ ([5] : List Int) ≠ []
    ∧ ∃ mN mV, mN ∈ ([3, 7] : List Int) ∧ mV ∈ ([5] : List Int)
        ∧ (∀ d ∈ ([3, 7] : List Int), d ≤ mN) ∧ (∀ v ∈ ([5] : List Int), v ≤ mV)
        ∧ get_max_vmid [3, 7] (SchedData.mk [LineData.mk [(['v', 'm'], ['5'])]] [] [] none)
            = some (min mV mN)
        ∧ ∀ oldmax : Int, oldmax < min mV mN →
            (∃ d ∈ ([3, 7] : List Int), oldmax < d) ∧ (∃ v ∈ ([5] : List Int), oldmax < v) :=
  ⟨by decide, by decide, by decide,
   get_max_vmid_spec [3, 7] (SchedData.mk [LineData.mk [(['v', 'm'], ['5'])]] [] [] none)
     [5] (by decide) (by decide) (by decide)⟩

/-! ### C1 -/

lemma foldl_add_eq {α : Type} [AddMonoid α] (l : List α) (a : α) :
    l.foldl (· + ·) a = a + l.sum := by
  induction l generalizing a with
  | nil => simp
  | cons x xs ih => simp [List.foldl_cons, ih (a + x), add_assoc]

lemma pySum_eq_sum {α : Type} [AddMonoid α] (l : List α) : pySum l = l.sum := by
  unfold pySum
  rw [foldl_add_eq, zero_add]

/-- C1: for a workload group with strictly positive shares, under the
asserted preconditions (total used-time and total shares strictly
positive), `FairnessTest.results` succeeds and computes for each workload
the fairness ratio `(used_i / total used) / (shares_i / total shares)`,
recording it in the metrics, and appends a fairness error for workload i
exactly when `|ratio - 1| > maxUnfairness`. -/
theorem fairness_results_spec (maxUnfairness : Rat) (vms : List FairVm) (useds : List Rat)
    (hu : usedList vms = some useds)
    (hsh : ∀ v ∈ vms, 0 < v.shares)
    (htu : 0 < pySum useds)
    (hts : 0 < pySum (vms.map FairVm.shares)) :
    ∃ ratios errs, fairnessResults maxUnfairness vms = some (ratios, errs)
      ∧ ratios.length = vms.length
      ∧ (∀ i (hv : i < vms.length) (hus : i < useds.length) (hr : i < ratios.length),
          ratios.get ⟨i, hr⟩ =
            (useds.get ⟨i, hus⟩ / pySum useds)
              / (((vms.get ⟨i, hv⟩).shares : Rat) / ((pySum (vms.map FairVm.shares) : Int) : Rat)))
      ∧ (∀ i (hr : i < ratios.length),
          (i ∈ errs ↔ maxUnfairness < |ratios.get ⟨i, hr⟩ - 1|))
      ∧ (∀ i ∈ errs, i < ratios.length) := by
  have hlen := usedList_length vms useds hu
  have hguard : 0 < pySum useds ∧ 0 < pySum (vms.map FairVm.shares)
      ∧ ∀ v ∈ vms, 0 < v.shares := ⟨htu, hts, hsh⟩
  have hrlen : (fairRatios vms useds).length = vms.length := by
    rw [fairRatios, List.length_zipWith, hlen, min_self]
  refine ⟨fairRatios vms useds, fairErrs maxUnfairness vms useds, ?_, hrlen, ?_, ?_, ?_⟩
  · simp only [fairnessResults, hu]
    rw [if_pos hguard]
  · intro i hv hus hr
    simp only [fairRatios, List.get_eq_getElem, List.getElem_zipWith]
  · intro i hr
    have hgetD : (fairRatios vms useds).getD i 0 = (fairRatios vms useds).get ⟨i, hr⟩ := by
      rw [List.get_eq_getElem, List.getD_eq_getElem]
    unfold fairErrs
    rw [List.mem_filter, List.mem_range]
    constructor
    · rintro ⟨-, hcond⟩
      rw [hgetD] at hcond
      exact of_decide_eq_true hcond
    · intro hcond
      exact ⟨hr, by rw [hgetD]; exact decide_eq_true hcond⟩
  · intro i hi
    have := (List.mem_filter.mp hi).1
    rw [List.mem_range] at this
    exact this

/-- Witness for C1: two workloads with shares 1000 and 2000 and summed
used-times 2 and 4. -/
theorem fairness_results_spec_witness :
    usedList [FairVm.mk 1000 [2], FairVm.mk 2000 [4]] = some [2, 4]
    ∧ (∀ v ∈ [FairVm.mk 1000 [2], FairVm.mk 2000 [4]], 0 < v.shares)
    ∧ 0 < pySum [(2 : Rat), 4]
    ∧ 0 < pySum ([FairVm.mk 1000 [2], FairVm.mk 2000 [4]].map FairVm.shares)
    ∧ ∃ ratios errs,
        fairnessResults (1 / 10) [FairVm.mk 1000 [2], FairVm.mk 2000 [4]] = some (ratios, errs)
        ∧ ratios.length = [FairVm.mk 1000 [2], FairVm.mk 2000 [4]].length
        ∧ (∀ i (hv : i < [FairVm.mk 1000 [2], FairVm.mk 2000 [4]].length)
             (hus : i < ([2, 4] : List Rat).length) (hr : i < ratios.length),
            ratios.get ⟨i, hr⟩ =
              (([2, 4] : List Rat).get ⟨i, hus⟩ / pySum [(2 : Rat), 4])
                / ((([FairVm.mk 1000 [2], FairVm.mk 2000 [4]].get ⟨i, hv⟩).shares : Rat)
                    / ((pySum ([FairVm.mk 1000 [2], FairVm.mk 2000 [4]].map FairVm.shares) : Int) : Rat)))
        ∧ (∀ i (hr : i < ratios.length),
            (i ∈ errs ↔ 1 / 10 < |ratios.get ⟨i, hr⟩ - 1|))
        ∧ (∀ i ∈ errs, i < ratios.length) :=
  ⟨rfl, by decide, by norm_num [pySum], by decide,
   fairness_results_spec (1 / 10) [FairVm.mk 1000 [2], FairVm.mk 2000 [4]] [2, 4]
     rfl (by decide) (by norm_num [pySum]) (by decide)⟩

/-! ### C5 -/

lemma usedList_scale (c : Int) (vms : List FairVm) :
    usedList (vms.map (scaleShares c)) = usedList vms := by
  induction vms with
  | nil => rfl
  | cons v vs ih =>
    simp only [List.map_cons, usedList, ih]
    rfl

/-- C5: over exact rational arithmetic, multiplying every workload's
shares by the same positive constant leaves the entire result of
`FairnessTest.results` — every fairness ratio and the error list —
unchanged, given the positivity preconditions. -/
theorem fairness_scale_invariance (c : Int) (maxUnfairness : Rat)
    (vms : List FairVm) (useds : List Rat)
    (hc : 0 < c)
    (hu : usedList vms = some useds)
    (hsh : ∀ v ∈ vms, 0 < v.shares)
    (htu : 0 < pySum useds)
    (hts : 0 < pySum (vms.map FairVm.shares)) :
    fairnessResults maxUnfairness (vms.map (scaleShares c)) =
      fairnessResults maxUnfairness vms := by
  have husc : usedList (vms.map (scaleShares c)) = some useds := by
    rw [usedList_scale, hu]
  have hmapsh : (vms.map (scaleShares c)).map FairVm.shares
      = vms.map (fun v => c * v.shares) := by
    rw [List.map_map]; rfl
  have hS : pySum ((vms.map (scaleShares c)).map FairVm.shares)
      = c * pySum (vms.map FairVm.shares) := by
    rw [hmapsh, pySum_eq_sum, pySum_eq_sum]
    exact List.sum_map_mul_left vms FairVm.shares c
  have hguard : 0 < pySum useds ∧ 0 < pySum (vms.map FairVm.shares)
      ∧ ∀ v ∈ vms, 0 < v.shares := ⟨htu, hts, hsh⟩
  have hguardsc : 0 < pySum useds
      ∧ 0 < pySum ((vms.map (scaleShares c)).map FairVm.shares)
      ∧ ∀ v ∈ vms.map (scaleShares c), 0 < v.shares := by
    refine ⟨htu, ?_, ?_⟩
    · rw [hS]; exact mul_pos hc hts
    · intro v' hv'
      obtain ⟨v, hv, rfl⟩ := List.mem_map.mp hv'
      exact mul_pos hc (hsh v hv)
  have hcQ : (c : Rat) ≠ 0 := by
    exact_mod_cast hc.ne'
  have hratios : fairRatios (vms.map (scaleShares c)) useds = fairRatios vms useds := by
    unfold fairRatios
    rw [List.zipWith_map_left]
    have hfun : (fun (v : FairVm) (u : Rat) => (u / pySum useds)
          / (((scaleShares c v).shares : Rat)
            / ((pySum ((vms.map (scaleShares c)).map FairVm.shares) : Int) : Rat)))
        = (fun (v : FairVm) (u : Rat) => (u / pySum useds)
          / ((v.shares : Rat) / ((pySum (vms.map FairVm.shares) : Int) : Rat))) := by
      funext v u
      have hsh' : ((scaleShares c v).shares : Rat) = (c : Rat) * (v.shares : Rat) := by
        unfold scaleShares
        push_cast
        ring
      rw [hsh', hS]
      push_cast
      rw [mul_div_mul_left _ _ hcQ]
    rw [hfun]
  have herrs : fairErrs maxUnfairness (vms.map (scaleShares c)) useds
      = fairErrs maxUnfairness vms useds := by
    unfold fairErrs
    rw [hratios]
  simp only [fairnessResults, hu, husc]
  rw [if_pos hguard, if_pos hguardsc, hratios, herrs]

/-- Witness for C5 at the concrete group of C1's witness, scaled by 2. -/
theorem fairness_scale_invariance_witness :
    (0 : Int) < 2
    ∧ usedList [FairVm.mk 1000 [2], FairVm.mk 2000 [4]] = some [2, 4]
    ∧ (∀ v ∈ [FairVm.mk 1000 [2], FairVm.mk 2000 [4]], 0 < v.shares)
    ∧ 0 < pySum [(2 : Rat), 4]
    ∧ 0 < pySum ([FairVm.mk 1000 [2], FairVm.mk 2000 [4]].map FairVm.shares)
    ∧ fairnessResults (1 / 10)
        ([FairVm.mk 1000 [2], FairVm.mk 2000 [4]].map (scaleShares 2)) =
      fairnessResults (1 / 10) [FairVm.mk 1000 [2], FairVm.mk 2000 [4]] :=
  ⟨by decide, rfl, by decide, by norm_num [pySum], by decide,
   fairness_scale_invariance 2 (1 / 10) [FairVm.mk 1000 [2], FairVm.mk 2000 [4]] [2, 4]
     (by decide) rfl (by decide) (by norm_num [pySum]) (by decide)⟩

/-! ### C4 -/

lemma belowMin_mem_iff (c1 c2 : Prop) [Decidable c1] [Decidable c2] :
    (MMErrKind.belowMin ∈
      ((if c1 then [MMErrKind.belowMin] else [])
        ++ (if c2 then [MMErrKind.aboveMax] else []))) ↔ c1 := by
  by_cases h1 : c1 <;> by_cases h2 : c2 <;> simp [h1, h2]

lemma aboveMax_mem_iff (c1 c2 : Prop) [Decidable c1] [Decidable c2] :
    (MMErrKind.aboveMax ∈
      ((if c1 then [MMErrKind.belowMin] else [])
        ++ (if c2 then [MMErrKind.aboveMax] else []))) ↔ c2 := by
  by_cases h1 : c1 <;> by_cases h2 : c2 <;> simp [h1, h2]

lemma minMaxResultsAux_spec (maxErr : Rat) (vms : List MMVm) :
    ∀ (i0 : Nat) (out : List (Rat × Rat) × List (Nat × MMErrKind)),
      minMaxResultsAux maxErr i0 vms = some out →
      out.1.length = vms.length
      ∧ (∀ p ∈ out.2, i0 ≤ p.1)
      ∧ ∀ i (hi : i < vms.length) (hi2 : i < out.1.length) r es,
          minMaxVm maxErr (vms.get ⟨i, hi⟩) = some (r, es) →
          out.1.get ⟨i, hi2⟩ = r ∧ ∀ k, ((i0 + i, k) ∈ out.2 ↔ k ∈ es) := by
  induction vms with
  | nil =>
    intro i0 out hout
    simp only [minMaxResultsAux, Option.some.injEq] at hout
    subst hout
    refine ⟨rfl, by simp, ?_⟩
    intro i hi
    exact absurd hi (Nat.not_lt_zero i)
  | cons v vs ih =>
    intro i0 out hout
    simp only [minMaxResultsAux] at hout
    cases hv : minMaxVm maxErr v with
    | none => rw [hv] at hout; simp at hout
    | some r0 =>
      rw [hv] at hout
      cases hrest : minMaxResultsAux maxErr (i0 + 1) vs with
      | none => rw [hrest] at hout; simp at hout
      | some rest =>
        rw [hrest] at hout
        simp only [Option.some.injEq] at hout
        subst hout
        obtain ⟨hl, hge, hspec⟩ := ih (i0 + 1) rest hrest
        refine ⟨by simp [hl], ?_, ?_⟩
        · intro p hp
          rcases List.mem_append.mp hp with hp1 | hp2
          · obtain ⟨k, hk, heq⟩ := List.mem_map.mp hp1
            rw [← heq]
          · exact Nat.le_of_succ_le (hge p hp2)
        · intro i hi hi2 r es hmk
          cases i with
          | zero =>
            have hv0 : (v :: vs).get ⟨0, hi⟩ = v := rfl
            rw [hv0, hv] at hmk
            injection hmk with hmk
            subst hmk
            refine ⟨rfl, ?_⟩
            intro k
            simp only [Nat.add_zero, List.mem_append, List.mem_map]
            constructor
            · rintro (⟨k', hk', hkeq⟩ | hmem)
              · have hk2 : k' = k := congrArg Prod.snd hkeq
                exact hk2 ▸ hk'
              · exact absurd (hge (i0, k) hmem) (Nat.not_succ_le_self i0)
            · intro hk
              exact Or.inl ⟨k, hk, rfl⟩
          | succ j =>
            have hj : j < vs.length := Nat.lt_of_succ_lt_succ hi
            have hj2 : j < rest.1.length := by
              rw [hl]; exact hj
            have hvj : (v :: vs).get ⟨j + 1, hi⟩ = vs.get ⟨j, hj⟩ := rfl
            rw [hvj] at hmk
            obtain ⟨hget, hmem⟩ := hspec j hj hj2 r es hmk
            refine ⟨?_, ?_⟩
            · have : (r0.1 :: rest.1).get ⟨j + 1, hi2⟩ = rest.1.get ⟨j, hj2⟩ := rfl
              rw [this, hget]
            · intro k
              have hidx : i0 + (j + 1) = (i0 + 1) + j := by omega
              rw [hidx, ← hmem k]
              simp only [List.mem_append, List.mem_map]
              constructor
              · rintro (⟨k', hk', hkeq⟩ | hmem2)
                · exfalso
                  have := congrArg Prod.fst hkeq
                  simp only at this
                  omega
                · exact hmem2
              · intro h
                exact Or.inr h

/-- C4: `MinMaxTest.results` appends a below-min error for a workload iff
its min read from the snapshot is nonzero and its summed used-time is
below `(uptime * min / 100) * (1 - maxErr)`, and an exceeded-max error iff
its max is nonzero and its summed used-time exceeds
`(uptime * max / 100) * (1 + maxErr)`; a workload with min and max both 0
never triggers either error, while its min-ratio and max-ratio metrics are
still reported, as 0 when the corresponding expected usage is 0. -/
theorem minmax_results_spec (maxErr : Rat) (vms : List MMVm)
    (out : List (Rat × Rat) × List (Nat × MMErrKind))
    (hout : minMaxResults maxErr vms = some out) :
    out.1.length = vms.length
    ∧ ∀ i (hi : i < vms.length) (hi2 : i < out.1.length) used,
        reduceAdd (vms.get ⟨i, hi⟩).vcpuUsed = some used →
        (((i, MMErrKind.belowMin) ∈ out.2) ↔
            ((vms.get ⟨i, hi⟩).amin ≠ 0
              ∧ used < (vms.get ⟨i, hi⟩).uptime * ((vms.get ⟨i, hi⟩).amin : Rat) / 100
                  * (1 - maxErr)))
        ∧ (((i, MMErrKind.aboveMax) ∈ out.2) ↔
            ((vms.get ⟨i, hi⟩).amax ≠ 0
              ∧ (vms.get ⟨i, hi⟩).uptime * ((vms.get ⟨i, hi⟩).amax : Rat) / 100
                  * (1 + maxErr) < used))
        ∧ (((vms.get ⟨i, hi⟩).amin = 0 ∧ (vms.get ⟨i, hi⟩).amax = 0) →
            ∀ k, (i, k) ∉ out.2)
        ∧ out.1.get ⟨i, hi2⟩ =
            ((if (vms.get ⟨i, hi⟩).uptime * ((vms.get ⟨i, hi⟩).amin : Rat) / 100 = 0 then 0
              else used / ((vms.get ⟨i, hi⟩).uptime * ((vms.get ⟨i, hi⟩).amin : Rat) / 100)),
             (if (vms.get ⟨i, hi⟩).uptime * ((vms.get ⟨i, hi⟩).amax : Rat) / 100 = 0 then 0
              else used / ((vms.get ⟨i, hi⟩).uptime * ((vms.get ⟨i, hi⟩).amax : Rat) / 100))) := by
  obtain ⟨hl, -, hspec⟩ := minMaxResultsAux_spec maxErr vms 0 out hout
  refine ⟨hl, ?_⟩
  intro i hi hi2 used hused
  have hmk : minMaxVm maxErr (vms.get ⟨i, hi⟩) = some
      (((if (vms.get ⟨i, hi⟩).uptime * ((vms.get ⟨i, hi⟩).amin : Rat) / 100 = 0 then 0
          else used / ((vms.get ⟨i, hi⟩).uptime * ((vms.get ⟨i, hi⟩).amin : Rat) / 100)),
        (if (vms.get ⟨i, hi⟩).uptime * ((vms.get ⟨i, hi⟩).amax : Rat) / 100 = 0 then 0
          else used / ((vms.get ⟨i, hi⟩).uptime * ((vms.get ⟨i, hi⟩).amax : Rat) / 100))),
       (if (vms.get ⟨i, hi⟩).amin ≠ 0
            ∧ used < (vms.get ⟨i, hi⟩).uptime * ((vms.get ⟨i, hi⟩).amin : Rat) / 100
              * (1 - maxErr)
          then [MMErrKind.belowMin] else [])
        ++ (if (vms.get ⟨i, hi⟩).amax ≠ 0
              ∧ (vms.get ⟨i, hi⟩).uptime * ((vms.get ⟨i, hi⟩).amax : Rat) / 100
                * (1 + maxErr) < used
            then [MMErrKind.aboveMax] else [])) := by
    simp only [minMaxVm, hused]
  obtain ⟨hget, hmem⟩ := hspec i hi hi2 _ _ hmk
  have hmem' : ∀ k, ((i, k) ∈ out.2 ↔ k ∈
      (if (vms.get ⟨i, hi⟩).amin ≠ 0
          ∧ used < (vms.get ⟨i, hi⟩).uptime * ((vms.get ⟨i, hi⟩).amin : Rat) / 100
            * (1 - maxErr)
        then [MMErrKind.belowMin] else [])
      ++ (if (vms.get ⟨i, hi⟩).amax ≠ 0
            ∧ (vms.get ⟨i, hi⟩).uptime * ((vms.get ⟨i, hi⟩).amax : Rat) / 100
              * (1 + maxErr) < used
          then [MMErrKind.aboveMax] else [])) := by
    intro k
    have h := hmem k
    rw [Nat.zero_add] at h
    exact h
  refine ⟨?_, ?_, ?_, hget⟩
  · rw [hmem' MMErrKind.belowMin, belowMin_mem_iff]
  · rw [hmem' MMErrKind.aboveMax, aboveMax_mem_iff]
  · rintro ⟨hmin0, hmax0⟩ k hk
    rw [hmem' k] at hk
    rw [if_neg (fun hcon => hcon.1 hmin0), if_neg (fun hcon => hcon.1 hmax0)] at hk
    simp at hk

/-- Witness for C4: one workload whose min and max both read as 0, with
used-time 5: `results` succeeds, no error is appended and both ratio
metrics are reported as 0. -/
theorem minmax_results_spec_witness :
    minMaxResults (1 / 10) [MMVm.mk 0 0 10 [5]] = some ([((0 : Rat), (0 : Rat))], [])
    ∧ ([((0 : Rat), (0 : Rat))] : List (Rat × Rat)).length = [MMVm.mk 0 0 10 [5]].length := by
  have hout : minMaxResults (1 / 10) [MMVm.mk 0 0 10 [5]]
      = some ([((0 : Rat), (0 : Rat))], []) := by
    norm_num [minMaxResults, minMaxResultsAux, minMaxVm, reduceAdd]
  exact ⟨hout, (minmax_results_spec (1 / 10) [MMVm.mk 0 0 10 [5]]
    ([((0 : Rat), (0 : Rat))], []) hout).1⟩

/-! ### C9 -/

/-- C9: when a workload's summed used-time over a sampling window is below
the 0.01 epsilon, `AffinityTortureTest.run` does not append a
stuck-workload error and continue: building the error message evaluates
`v.vcpu` (and `v.usedsec`) on the `TestWorld` object, which has no such
attributes, so the run raises `AttributeError` and aborts (modelled as
`none`), even when a healthy workload earlier in the same repetition was
processed fine. -/
theorem torture_stuck_aborts :
    tortureVmStep (TortureVm.mk 1 none [TortureVcpu.mk ['3'] (1 / 200)]) = none
    ∧ tortureVmStep (TortureVm.mk 1 none [TortureVcpu.mk ['3'] 5]) = some []
    ∧ tortureRunErrs [[TortureVm.mk 1 none [TortureVcpu.mk ['3'] 5],
        TortureVm.mk 1 none [TortureVcpu.mk ['3'] (1 / 200)]]] = none := by
  have h1 : ((1 : Rat) / 200) < 1 / 100 := by norm_num
  have h2 : ¬ ((5 : Rat) < 1 / 100) := by norm_num
  have hstuck : tortureVmStep (TortureVm.mk 1 none [TortureVcpu.mk ['3'] (1 / 200)]) = none := by
    simp only [tortureVmStep, checkAffinity, reduceAdd, List.map_cons, List.map_nil,
      List.foldl_nil]
    rw [if_pos h1]
  have hok : tortureVmStep (TortureVm.mk 1 none [TortureVcpu.mk ['3'] 5]) = some [] := by
    simp only [tortureVmStep, checkAffinity, reduceAdd, List.map_cons, List.map_nil,
      List.foldl_nil]
    rw [if_neg h2]
    simp
  refine ⟨hstuck, hok, ?_⟩
  simp only [tortureRunErrs, tortureStepErrs, hstuck, hok]

/-! ### C3 -/

lemma skipCellLines_spec (cell : List (List Char)) (t : List Char)
    (rest : List (List Char))
    (hc : ∀ l ∈ cell, notblankMatch l = true) (ht : notblankMatch t = false) :
    skipCellLines (cell ++ t :: rest) = rest := by
  induction cell with
  | nil => simp [skipCellLines, ht]
  | cons a as ih =>
    have ha := hc a (by simp)
    simp [skipCellLines, ha, ih (fun l hl => hc l (by simp [hl]))]

lemma parsePcpuLines_spec (hs : List (List Char)) (ls : List (List Char))
    (t : List Char) (rest : List (List Char))
    (hm : ∀ l ∈ ls, notblankMatch l = true ∧ hs.length = (pysplit l).length)
    (ht : notblankMatch t = false) :
    parsePcpuLines hs (ls ++ t :: rest)
      = some (ls.map (fun l => LineData.mk (hs.zip (pysplit l))), rest) := by
  induction ls with
  | nil => simp [parsePcpuLines, ht]
  | cons a as ih =>
    obtain ⟨ha, hlen⟩ := hm a (by simp)
    have ih' := ih (fun l hl => hm l (by simp [hl]))
    have hmk : mkLineData hs (pysplit a) = some (LineData.mk (hs.zip (pysplit a))) := by
      unfold mkLineData
      rw [if_pos hlen]
    simp only [List.cons_append, parsePcpuLines, ha, if_true, hmk, List.append_eq, ih',
      List.map_cons]

lemma filterMap_mkLineData_length (hs : List (List Char)) (vls : List (List Char)) :
    (vls.filterMap (fun l => mkLineData hs (pysplit l))).length
      = (vls.filter (fun l => hs.length = (pysplit l).length)).length := by
  induction vls with
  | nil => rfl
  | cons a as ih =>
    by_cases h : hs.length = (pysplit a).length
    · have hmk : mkLineData hs (pysplit a) = some (LineData.mk (hs.zip (pysplit a))) := by
        unfold mkLineData; rw [if_pos h]
      simp only [List.filterMap_cons, List.filter_cons, hmk]
      rw [if_pos (by simp [h])]
      simp [ih]
    · have hmk : mkLineData hs (pysplit a) = none := by
        unfold mkLineData; rw [if_neg h]
      simp only [List.filterMap_cons, List.filter_cons, hmk]
      rw [if_neg (by simp [h])]
      simp [ih]

/-- C3 (amended): in verbose mode, with a well-formed global section,
cell section and pcpu section, a vcpu-section data line whose token count
mismatches the vcpu header causes only that single record to be dropped —
the parse of the remaining lines completes and returns a snapshot whose
vcpu records are exactly the well-formed vcpu lines, in order. -/
theorem load_data_verbose_vcpu_robust
    (gh gl b1 b2 ct ph pt vh vt : List Char)
    (cell pls vls rest : List (List Char))
    (hg : (pysplit gh).length = (pysplit gl).length)
    (hcell : ∀ l ∈ cell, notblankMatch l = true)
    (hct : notblankMatch ct = false)
    (hpl : ∀ l ∈ pls, notblankMatch l = true ∧ (pysplit ph).length = (pysplit l).length)
    (hpt : notblankMatch pt = false)
    (hvl : ∀ l ∈ vls, notblankMatch l = true)
    (hvt : notblankMatch vt = false) :
    load_data
        (gh :: gl :: b1 :: b2 :: (cell ++ ct :: ph :: (pls ++ pt :: vh :: (vls ++ vt :: rest))))
        true
      = some (SchedData.mk
          (vls.filterMap (fun l => mkLineData (pysplit vh) (pysplit l)))
          (pls.map (fun l => LineData.mk ((pysplit ph).zip (pysplit l))))
          vls
          (some (LineData.mk ((pysplit gh).zip (pysplit gl)))))
    ∧ (vls.filterMap (fun l => mkLineData (pysplit vh) (pysplit l))).length
        = (vls.filter (fun l => (pysplit vh).length = (pysplit l).length)).length := by
  have hgmk : mkLineData (pysplit gh) (pysplit gl)
      = some (LineData.mk ((pysplit gh).zip (pysplit gl))) := by
    unfold mkLineData
    rw [if_pos hg]
  constructor
  · simp only [load_data, readline, if_true, hgmk,
      skipCellLines_spec cell ct (ph :: (pls ++ pt :: vh :: (vls ++ vt :: rest))) hcell hct,
      parsePcpuLines_spec (pysplit ph) pls pt (vh :: (vls ++ vt :: rest)) hpl hpt,
      parseVcpuLines_spec (pysplit vh) vls vt rest hvl hvt]
  · exact filterMap_mkLineData_length (pysplit vh) vls

/-- Witness for C3's amended theorem: a concrete verbose dump whose vcpu
table has three data lines, the middle one with a mismatched token count;
the parse completes with two vcpu records. -/
theorem load_data_verbose_vcpu_robust_witness :
    ((pysplit "g1 g2".toList).length = (pysplit "3 4".toList).length)
    ∧ (∀ l ∈ [("0 9".toList : List Char)], notblankMatch l = true)
    ∧ notblankMatch "".toList = false
    ∧ load_data
        ("g1 g2".toList :: "3 4".toList :: "".toList :: "cellh".toList ::
          (["0 9".toList] ++ "".toList :: "cpu yield".toList ::
            (["0 5".toList] ++ "".toList :: "vm vcpu".toList ::
              (["1 1".toList, "2 2 9".toList, "3 3".toList] ++ "".toList :: []))))
        true
      = some (SchedData.mk
          (["1 1".toList, "2 2 9".toList, "3 3".toList].filterMap
            (fun l => mkLineData (pysplit "vm vcpu".toList) (pysplit l)))
          (["0 5".toList].map
            (fun l => LineData.mk ((pysplit "cpu yield".toList).zip (pysplit l))))
          ["1 1".toList, "2 2 9".toList, "3 3".toList]
          (some (LineData.mk ((pysplit "g1 g2".toList).zip (pysplit "3 4".toList))))) := by
  refine ⟨by decide, by decide, by decide, ?_⟩
  exact (load_data_verbose_vcpu_robust "g1 g2".toList "3 4".toList "".toList "cellh".toList
    "".toList "cpu yield".toList "".toList "vm vcpu".toList "".toList
    ["0 9".toList] ["0 5".toList] ["1 1".toList, "2 2 9".toList, "3 3".toList] []
    (by decide) (by decide) (by decide) (by decide) (by decide) (by decide) (by decide)).1

/-- C3 counterexample: the parser does raise for a malformed data line
outside the vcpu section, and never returns a snapshot in non-verbose
mode.  The first dump is verbose and well-formed except that its single
pcpu data line has three tokens under a two-column pcpu header: the claim
calls for that record alone to be dropped, but `load_data` raises
(`LineData.__init__` at line 131 is not wrapped in `try`).  The second
input is a well-formed non-verbose dump, where the final `return` reads
the never-assigned local `global_data` and raises `UnboundLocalError`. -/
theorem load_data_raises_counterexample :
    load_data ["gh1 gh2".toList, "1 2".toList, "".toList, "cellh".toList,
      "0 11".toList, "".toList, "cpu yield".toList, "0 5 77".toList, "".toList,
      "vm vcpu".toList, "1 1".toList, "".toList] true = none
    ∧ load_data ["vm vcpu".toList, "1 1".toList, "".toList] false = none := by
  constructor
  · decide
  · decide

end SchedTest
